import Mathlib

/-!
Shallow embedding of the reverse-proxy load balancer (Go sources under
`internal/`, `pkg/`, `config/`) and proofs about its selection strategies,
token-bucket admission controller, stats collector and hot-reload
orchestrator.

Modelling conventions:
* Go `float64` quantities (weights, rates) are embedded as `ℚ`; the only
  divergence is float rounding, which none of the proved properties depend on.
* Go `uint64` / `int64` arithmetic is `Nat` / `Int` with explicit wrapping
  (`% 2^64`) or explicit bounds (`2^63 - 1`) where the source relies on the
  machine width.
* A Go `map[string]T` (and `sync.Map`) is an association list
  `List (String × T)`; registry iteration order is the list order, and the
  registry invariant "at most one entry per key" is carried as a `Nodup`
  hypothesis where a theorem needs it.
* Pointer-returning Go functions that may return `nil` are embedded as
  `Option`-returning functions.
-/

namespace LBProxy

/-- 2^64, the modulus of Go's `uint64` arithmetic (`atomic.AddUint64` wraps). -/
def UINT64 : Nat := 2 ^ 64

/-- `math.MaxInt64`, the initial value of `minConn` in both least-connections
implementations. -/
def maxInt64 : Int := 2 ^ 63 - 1

/-! ## Rate limiting (`internal/ratelimit/ratelimiter.go`, `ratelimiter.go` impl) -/

/-- `ratelimit.UserLimits`: per-client rate (requests/second) and burst. -/
structure UserLimits where
  rate : ℚ
  burst : Int
  deriving DecidableEq, Repr

/-- `ratelimit.TokenBucket`: default parameters plus the two `sync.Map`s
(`userLimits` holding per-client overrides, `limiters` holding the lazily
created `rate.Limiter` instances, here represented by the parameters they
were built from). -/
structure TokenBucket where
  defaultRate : ℚ
  defaultBurst : Int
  userLimits : List (String × UserLimits)
  limiters : List (String × UserLimits)
  deriving DecidableEq, Repr

/-- `sync.Map.Load`: first (unique) binding of a key, if any. -/
def mapLoad (m : List (String × α)) (k : String) : Option α :=
  (m.find? (fun p => p.1 = k)).map (fun p => p.2)

/-- `sync.Map.Store`: replace the binding of `k` if present, else append it. -/
def mapStore (m : List (String × α)) (k : String) (v : α) : List (String × α) :=
  if (m.find? (fun p => p.1 = k)).isSome then
    m.map (fun p => if p.1 = k then (k, v) else p)
  else
    m ++ [(k, v)]

/-- `sync.Map.Delete`: drop every binding of `k`. -/
def mapDelete (m : List (String × α)) (k : String) : List (String × α) :=
  m.filter (fun p => ¬ p.1 = k)

/-- `ratelimit.NewTokenBucket`. -/
def NewTokenBucket (defaultRate : ℚ) (defaultBurst : Int) : TokenBucket :=
  { defaultRate := defaultRate
    defaultBurst := defaultBurst
    userLimits := []
    limiters := [] }

/-- `TokenBucket.GetUserLimits`: the stored override if present, otherwise a
fresh record holding the defaults.  The Go function returns `*UserLimits`
(a nilable pointer), embedded as `Option`; its body returns a non-nil
pointer on every path. -/
def GetUserLimits (tb : TokenBucket) (userID : String) : Option UserLimits :=
  match mapLoad tb.userLimits userID with
  | some limits => some limits
  | none => some { rate := tb.defaultRate, burst := tb.defaultBurst }

/-- `TokenBucket.SetUserLimits`: store the override and a fresh limiter built
from it. -/
def SetUserLimits (tb : TokenBucket) (userID : String) (rate : ℚ) (burst : Int) :
    TokenBucket :=
  { tb with
    userLimits := mapStore tb.userLimits userID { rate := rate, burst := burst }
    limiters := mapStore tb.limiters userID { rate := rate, burst := burst } }

/-- `TokenBucket.DeleteUserLimits`: drop both the override and the limiter. -/
def DeleteUserLimits (tb : TokenBucket) (userID : String) : TokenBucket :=
  { tb with
    userLimits := mapDelete tb.userLimits userID
    limiters := mapDelete tb.limiters userID }

/-- `TokenBucket.UpdateUserLimits`: read the current limits (defaulted), apply
the mutator, store the result and a fresh limiter built from it. -/
def UpdateUserLimits (tb : TokenBucket) (userID : String)
    (updateFn : UserLimits → UserLimits) : TokenBucket :=
  match GetUserLimits tb userID with
  | none => tb
  | some limits =>
      let limits := updateFn limits
      { tb with
        userLimits := mapStore tb.userLimits userID limits
        limiters := mapStore tb.limiters userID limits }

/-- `TokenBucket.getLimiter`: return the existing limiter for the client, or
lazily create one from the limits currently in effect.  Returns the limiter's
parameters together with the (possibly extended) bucket state. -/
def getLimiter (tb : TokenBucket) (userID : String) : UserLimits × TokenBucket :=
  match mapLoad tb.limiters userID with
  | some limiter => (limiter, tb)
  | none =>
      let limits := (GetUserLimits tb userID).getD
        { rate := tb.defaultRate, burst := tb.defaultBurst }
      (limits, { tb with limiters := mapStore tb.limiters userID limits })

/-! ## Rate-limit CRUD handlers (`internal/transport/transport.go`) -/

/-- `transport.UserRateLimit`: the JSON request body of the CRUD surface. -/
structure UserRateLimit where
  rate : ℚ
  burst : Int
  deriving DecidableEq, Repr

/-- The HTTP statuses the rate-limit CRUD handlers can write. -/
inductive CrudStatus where
  | badRequest
  | conflict
  | notFound
  | created
  | ok
  | noContent
  deriving DecidableEq, Repr

/-- `Proxy.createRateLimit`: decode the body, validate `rate > 0 && burst > 0`,
reject with 409 when `GetUserLimits` returns non-nil, else store the limits
and answer 201.  `body = none` models a JSON decoding failure. -/
def createRateLimit (tb : TokenBucket) (userID : String)
    (body : Option UserRateLimit) : CrudStatus × TokenBucket :=
  match body with
  | none => (.badRequest, tb)
  | some limits =>
      if limits.rate ≤ 0 ∨ limits.burst ≤ 0 then (.badRequest, tb)
      else if (GetUserLimits tb userID).isSome then (.conflict, tb)
      else (.created, SetUserLimits tb userID limits.rate limits.burst)

/-- `Proxy.updateRateLimit`: decode, validate, reject with 404 when
`GetUserLimits` returns nil, else overwrite rate and burst via
`UpdateUserLimits` and answer 200. -/
def updateRateLimit (tb : TokenBucket) (userID : String)
    (body : Option UserRateLimit) : CrudStatus × TokenBucket :=
  match body with
  | none => (.badRequest, tb)
  | some limits =>
      if limits.rate ≤ 0 ∨ limits.burst ≤ 0 then (.badRequest, tb)
      else if (GetUserLimits tb userID) = none then (.notFound, tb)
      else (.ok, UpdateUserLimits tb userID
        (fun ul => { ul with rate := limits.rate, burst := limits.burst }))

/-- `Proxy.deleteRateLimit`: reject with 404 when `GetUserLimits` returns nil,
else delete the limits and answer 204. -/
def deleteRateLimit (tb : TokenBucket) (userID : String) :
    CrudStatus × TokenBucket :=
  if (GetUserLimits tb userID) = none then (.notFound, tb)
  else (.noContent, DeleteUserLimits tb userID)

/-! ## Proxy start (`internal/transport/transport.go`, `Proxy.Start`) -/

/-- The result of `http.Server.ListenAndServe`, as observed by the goroutine
spawned by `Proxy.Start`: `none` while serving, `serverClosed` for
`http.ErrServerClosed`, `other` for a bind/serve failure. -/
inductive ServeErr where
  | serverClosed
  | other (msg : String)
  deriving DecidableEq, Repr

/-- What `Proxy.Start` produces: the error value returned to its caller and
the messages logged by the background goroutine. -/
structure StartEffect where
  returned : Option String
  logged : List String
  deriving DecidableEq, Repr

/-- `Proxy.Start(port)`: sets the address, launches `ListenAndServe` in a
goroutine that logs any error other than `http.ErrServerClosed`, sleeps
100ms and returns `nil`.  `listenResult` stands for the outcome of the
underlying listener. -/
def ProxyStart (port : String) (listenResult : Option ServeErr) : StartEffect :=
  { returned := none
    logged :=
      match listenResult with
      | some (ServeErr.other msg) => ["server start error on " ++ port ++ ": " ++ msg]
      | _ => [] }

/-! ## Backend registry (`internal/loadbalancer/base/base.go`) -/

/-- The `backend.Backend` data a strategy reads: identity, URL and the
configured weight (`float64`, embedded as `ℚ`). -/
structure GoBackend where
  id : String
  url : String
  weight : ℚ
  deriving DecidableEq, Repr

/-- `base.Stats`: per-backend counters kept by the registry. -/
structure RegStats where
  activeConnections : Int
  totalRequests : Nat
  failedRequests : Nat
  responseTime : Int
  deriving DecidableEq, Repr

/-- The all-zero `base.Stats` a fresh registry entry starts with. -/
def RegStats.zero : RegStats :=
  { activeConnections := 0, totalRequests := 0, failedRequests := 0, responseTime := 0 }

/-- `base.BackendState`: one registry entry. -/
structure BackendState where
  backend : GoBackend
  stats : RegStats
  weight : ℚ
  deriving DecidableEq, Repr

/-- The registry map `map[string]*BackendState`, as a list in iteration
order; the map invariant is that backend ids are `Nodup`. -/
abbrev Registry := List BackendState

/-- `BaseLoadBalancer.AddBackend`: `b.backends[id] = &BackendState{Backend: b}`
(zero `Stats`, zero `Weight`) — replacing the entry when the id is already
present, appending otherwise. -/
def baseAddBackend (reg : Registry) (b : GoBackend) : Registry :=
  if (reg.find? (fun st => st.backend.id = b.id)).isSome then
    reg.map (fun st =>
      if st.backend.id = b.id then
        { backend := b, stats := RegStats.zero, weight := 0 }
      else st)
  else
    reg ++ [{ backend := b, stats := RegStats.zero, weight := 0 }]

/-- `BaseLoadBalancer.GetBackend`: the entry keyed by `id`, or `nil`. -/
def getBackend (reg : Registry) (id : String) : Option BackendState :=
  reg.find? (fun st => st.backend.id = id)

/-- `BaseLoadBalancer.IncActiveConnections`: `atomic.AddInt64(...,1)` on the
entry keyed by `id` (a no-op when the id is absent).  Under the registry's
unique-id invariant at most one entry matches. -/
def incActiveConnections (reg : Registry) (id : String) : Registry :=
  reg.map (fun st =>
    if st.backend.id = id then
      { st with stats := { st.stats with
          activeConnections := st.stats.activeConnections + 1 } }
    else st)

/-! ## RoundRobin (`algorithms/round_robin`, src/unnamed/part_000) -/

/-- `RoundRobin.Invoke`: on an empty registry log and return `nil`; otherwise
`next := atomic.AddUint64(&r.current, 1) % uint64(len(backends))` and return
`backends[next]`.  Returns the selection together with the new value of the
shared `uint64` counter (which wraps at `2^64`). -/
def roundRobinInvoke (current : Nat) (backends : Registry) :
    Option GoBackend × Nat :=
  if backends.length = 0 then (none, current)
  else
    let counter := (current + 1) % UINT64
    ((backends.get? (counter % backends.length)).map (fun st => st.backend), counter)

/-- `n` consecutive `RoundRobin.Invoke` calls against a fixed registry,
threading the shared counter; returns the selections in order and the final
counter. -/
def roundRobinRun : Nat → Nat → Registry → List (Option GoBackend) × Nat
  | 0, current, _ => ([], current)
  | n + 1, current, backends =>
      let step := roundRobinInvoke current backends
      let rest := roundRobinRun n step.2 backends
      (step.1 :: rest.1, rest.2)

/-! ## WeightedRoundRobin (`algorithms/weighted`, src/unnamed/part_001) -/

/-- `WeightedRoundRobin.AddBackend`: run the base `AddBackend`, then set the
stored entry's `Weight` to the backend's configured weight, substituting
`1.0` when that weight is non-positive. -/
def wrrAddBackend (reg : Registry) (b : GoBackend) : Registry :=
  let reg := baseAddBackend reg b
  match getBackend reg b.id with
  | none => reg
  | some _ =>
      reg.map (fun st =>
        if st.backend.id = b.id then
          { st with weight := if b.weight ≤ 0 then 1 else b.weight }
        else st)

/-- The selection loop of `WeightedRoundRobin.Invoke`: walk the snapshot in
iteration order accumulating `Weight`, returning the first backend whose
running sum reaches or exceeds `target`; `none` when the walk falls through. -/
def wrrLoop (target : ℚ) : ℚ → Registry → Option GoBackend
  | _, [] => none
  | accumWeight, st :: rest =>
      let accumWeight := accumWeight + st.weight
      if target ≤ accumWeight then some st.backend
      else wrrLoop target accumWeight rest

/-- `WeightedRoundRobin.Invoke`: on an empty registry return `nil`; otherwise
sum the weights, advance the shared `uint64` counter, take
`target = float64(next % 1000) / 1000 * totalWeight`, run the accumulation
walk and fall back to the last backend when no prefix reaches the target.
Returns the selection and the new counter. -/
def wrrInvoke (current : Nat) (backends : Registry) : Option GoBackend × Nat :=
  if backends.length = 0 then (none, current)
  else
    let totalWeight := (backends.map (fun st => st.weight)).sum
    let next := (current + 1) % UINT64
    let target := ((next % 1000 : Nat) : ℚ) / 1000 * totalWeight
    match wrrLoop target 0 backends with
    | some b => (some b, next)
    | none => (backends.getLast?.map (fun st => st.backend), next)

/-! ## LeastConn — the wired strategy (`algorithms/leastconn`, src/unnamed/part_002)

`loadbalancer.New` wires `"LeastConnections"` to `leastconn.NewLeastConn`,
i.e. to this variant. -/

/-- The scan shared by both least-connections variants: keep the first entry
whose `ActiveConnections` is strictly below the running minimum, which
starts at `math.MaxInt64`. -/
def leastConnScan : Registry → Option BackendState → Int → Option BackendState
  | [], selected, _ => selected
  | st :: rest, selected, minConn =>
      if st.stats.activeConnections < minConn then
        leastConnScan rest (some st) st.stats.activeConnections
      else
        leastConnScan rest selected minConn

/-- `LeastConn.Invoke` (the variant wired into `loadbalancer.New`): on an
empty registry return `nil`; otherwise scan for the entry with the fewest
active connections and return its backend, or `nil` when the scan selected
nothing.  The method body performs no write to the registry, so the full
effect of an invocation is the selection paired with the unchanged
registry. -/
def leastConnInvoke (backends : Registry) : Option GoBackend × Registry :=
  if backends.length = 0 then (none, backends)
  else
    match leastConnScan backends none maxInt64 with
    | some st => (some st.backend, backends)
    | none => (none, backends)

/-! ## LeastConnections — the unwired duplicate
(`internal/loadbalancer/algorithms/leastconn/least_connections.go`) -/

/-- `LeastConnections.Invoke`: same scan, but an empty scan result falls back
to `backends[0]`, and the chosen backend's active-connection count is
incremented through `IncActiveConnections` before returning.  Returns the
selection and the updated registry. -/
def leastConnectionsInvoke : Registry → Option GoBackend × Registry
  | [] => (none, [])
  | b0 :: rest =>
      let backends := b0 :: rest
      let selected := (leastConnScan backends none maxInt64).getD b0
      (some selected.backend, incActiveConnections backends selected.backend.id)

/-! ## Strategy construction (`internal/loadbalancer`, src/unnamed/part_004) -/

/-- The concrete strategy `loadbalancer.New` instantiates. -/
inductive LBKind where
  | roundRobin
  | weightedRoundRobin
  | leastConnections
  deriving DecidableEq, Repr

/-- `loadbalancer.New`: dispatch on the configured method name, failing on
anything but the three supported names. -/
def loadbalancerNew (method : String) : Except String LBKind :=
  if method = "RoundRobin" then .ok .roundRobin
  else if method = "WeightedRoundRobin" then .ok .weightedRoundRobin
  else if method = "LeastConnections" then .ok .leastConnections
  else .error ("unsupported balancing method: " ++ method)

/-! ## Hot-reload orchestrator (`app`, src/unnamed/part_007) -/

/-- One constructed proxy instance: its identity plus the components
`reconfigure` built for it. -/
structure ProxyInst where
  pid : Nat
  lbKind : LBKind
  rate : ℚ
  burst : Int
  deriving DecidableEq, Repr

/-- The orchestrator state `App` (the parts `reconfigure` touches): the
currently active proxy, the identities of proxies that have been stopped,
and a supply of fresh proxy identities. -/
structure AppState where
  proxy : Option ProxyInst
  stopped : List Nat
  nextPid : Nat
  deriving DecidableEq, Repr

/-- The configuration fields `reconfigure` consumes. -/
structure AppConfig where
  method : String
  rate : ℚ
  burst : Int
  deriving DecidableEq, Repr

/-- `App.reconfigure`: build the load balancer (failing on an unsupported
method), the token bucket and the new proxy; if a proxy is already active,
start the new proxy (aborting on failure) and only then stop the old one;
on first start, just start the new proxy.  `a.proxy` is assigned only after
every fallible step succeeded.  `startErr` stands for the result of
`Proxy.Start` on the newly built proxy.  Returns the new orchestrator state
and the error returned to the caller, the state being unchanged whenever an
error is returned. -/
def reconfigure (a : AppState) (cfg : AppConfig)
    (startErr : ProxyInst → Option String) : AppState × Option String :=
  match loadbalancerNew cfg.method with
  | .error e => (a, some ("failed to create load balancer: " ++ e))
  | .ok kind =>
      let newProxy : ProxyInst :=
        { pid := a.nextPid, lbKind := kind, rate := cfg.rate, burst := cfg.burst }
      match a.proxy with
      | some oldProxy =>
          match startErr newProxy with
          | some e => (a, some ("failed to start new proxy: " ++ e))
          | none =>
              ({ proxy := some newProxy
                 stopped := a.stopped ++ [oldProxy.pid]
                 nextPid := a.nextPid + 1 }, none)
      | none =>
          match startErr newProxy with
          | some e => (a, some ("failed to start proxy: " ++ e))
          | none =>
              ({ proxy := some newProxy
                 stopped := a.stopped
                 nextPid := a.nextPid + 1 }, none)

/-! ## Stats collector (`pkg/backend/impl/base.go`, `BaseBackend.updateStats`) -/

/-- `backend.LoadStats`: the derived per-backend statistics view.  Durations
are embedded as `Int` nanoseconds (`time.Duration` is an `int64`). -/
structure LoadStats where
  activeConnections : Int
  avgResponseTime : Int
  requestsPerSecond : ℚ
  successRate : ℚ
  deriving DecidableEq, Repr

/-- The fields of `BaseBackend` that one tick of `updateStats` reads and
writes.  `elapsed` (the time since `lastCountReset`) is supplied to the tick
as a parameter instead of being read from a clock. -/
structure BackendTickState where
  stats : LoadStats
  requestTimes : List Int
  requestCount : Int
  successCount : Int
  deriving DecidableEq, Repr

/-- One iteration of the `updateStats` ticker loop, in source order:
(1) when `elapsed > 0`, set `RequestsPerSecond := requestCount / elapsed`
and reset `requestCount` to 0;
(2) re-read `requestCount` as `totalRequests` and, when it is positive, set
`SuccessRate := successCount / totalRequests`;
(3) set `AvgResponseTime` to the mean of the strictly positive entries of
`requestTimes`, when any exist. -/
def updateStatsTick (b : BackendTickState) (elapsed : ℚ) : BackendTickState :=
  let b :=
    if 0 < elapsed then
      let count := b.requestCount
      { b with
        stats := { b.stats with requestsPerSecond := (count : ℚ) / elapsed }
        requestCount := 0 }
    else b
  let b :=
    let totalRequests := b.requestCount
    if 0 < totalRequests then
      { b with
        stats := { b.stats with
          successRate := (b.successCount : ℚ) / (totalRequests : ℚ) } }
    else b
  let positiveTimes := b.requestTimes.filter (fun t => 0 < t)
  let total := positiveTimes.sum
  let count := positiveTimes.length
  if 0 < count then
    { b with
      stats := { b.stats with avgResponseTime := total / (count : Int) } }
  else b

/-! ## Shared concrete fixtures -/

/-- Concrete backend used in witnesses and counterexamples. -/
def bkA : GoBackend := { id := "a", url := "http://localhost:8081", weight := 3 }

/-- Concrete backend used in witnesses and counterexamples. -/
def bkB : GoBackend := { id := "b", url := "http://localhost:8082", weight := 1 }

/-- Concrete backend used in witnesses and counterexamples. -/
def bkC : GoBackend := { id := "c", url := "http://localhost:8083", weight := 2 }

/-- Registry entry for `bkA` with zero counters. -/
def stA0 : BackendState := { backend := bkA, stats := RegStats.zero, weight := 3 }

/-- Registry entry for `bkB` with five active connections. -/
def stB5 : BackendState :=
  { backend := bkB
    stats := { RegStats.zero with activeConnections := 5 }
    weight := 1 }

/-- Registry entry for `bkC` with zero counters. -/
def stC0 : BackendState := { backend := bkC, stats := RegStats.zero, weight := 2 }

/-- Registry entry for `bkA` holding exactly `math.MaxInt64` active
connections. -/
def stAMax : BackendState :=
  { backend := bkA
    stats := { RegStats.zero with activeConnections := maxInt64 }
    weight := 3 }

/-- A three-backend registry snapshot. -/
def regABC : Registry := [stA0, stB5, stC0]

/-! ## Association-map lemmas -/

/-- `mapLoad` after `mapDelete` of the same key finds nothing. -/
theorem mapLoad_mapDelete (m : List (String × α)) (k : String) :
    mapLoad (mapDelete m k) k = none := by
  simp only [mapLoad, mapDelete, Option.map_eq_none']
  rw [List.find?_eq_none]
  intro p hp
  rcases List.mem_filter.mp hp with ⟨-, h2⟩
  simpa using h2

/-! ## Claim theorems: rate limiting -/

/-- Claim C9: deleting a client's limits removes both the override and the
limiter entry, after which `GetUserLimits` returns the process defaults and
the limiter lazily created on next use is built from the defaults — exactly
the observable state of a client for which no override was ever set. -/
theorem deleteUserLimits_restores_defaults (tb : TokenBucket) (u : String) :
    mapLoad (DeleteUserLimits tb u).userLimits u = none ∧
    mapLoad (DeleteUserLimits tb u).limiters u = none ∧
    GetUserLimits (DeleteUserLimits tb u) u =
      some { rate := tb.defaultRate, burst := tb.defaultBurst } ∧
    (getLimiter (DeleteUserLimits tb u) u).1 =
      { rate := tb.defaultRate, burst := tb.defaultBurst } := by
  have h1 : mapLoad (DeleteUserLimits tb u).userLimits u = none :=
    mapLoad_mapDelete tb.userLimits u
  have h2 : mapLoad (DeleteUserLimits tb u).limiters u = none :=
    mapLoad_mapDelete tb.limiters u
  have h3 : GetUserLimits (DeleteUserLimits tb u) u =
      some { rate := tb.defaultRate, burst := tb.defaultBurst } := by
    unfold GetUserLimits
    rw [h1]
    rfl
  refine ⟨h1, h2, h3, ?_⟩
  unfold getLimiter
  rw [h2, h3]
  rfl

/-- Claim C1 (code bug): on a freshly built bucket no limits exist for the
client, yet `createRateLimit` rejects with 409 Conflict (because
`GetUserLimits` never returns nil), while `updateRateLimit` and
`deleteRateLimit` do not reject even though no limits exist; the reject
path of create leaves the bucket unchanged. -/
theorem crud_handlers_at_fresh_bucket :
    mapLoad (NewTokenBucket 100 200).userLimits "alice" = none ∧
    createRateLimit (NewTokenBucket 100 200) "alice"
        (some { rate := 1, burst := 1 }) =
      (CrudStatus.conflict, NewTokenBucket 100 200) ∧
    (updateRateLimit (NewTokenBucket 100 200) "alice"
        (some { rate := 1, burst := 1 })).1 = CrudStatus.ok ∧
    (deleteRateLimit (NewTokenBucket 100 200) "alice").1 =
      CrudStatus.noContent := by
  refine ⟨rfl, ?_, rfl, rfl⟩
  decide

/-- The strictly-positive entries of an all-zero 60-slot duration history. -/
theorem filter_pos_replicate_zero :
    (List.replicate 60 (0 : Int)).filter (fun t => 0 < t) = [] := by decide

/-! ## Claim theorems: proxy start -/

/-- Claim C10: `Proxy.Start` returns nil for every port and every outcome of
the underlying listener; a bind/serve failure is only logged by the
background goroutine, never propagated to the caller. -/
theorem proxyStart_always_succeeds (port : String) (listenResult : Option ServeErr) :
    (ProxyStart port listenResult).returned = none := rfl

/-! ## Claim theorems: stats collector -/

/-- Claim C3 (code bug): a tick that observed 4 requests (3 successful) since
the last reset, with one second elapsed, recomputes requests-per-second as
4/1 and resets the request counter — but leaves the success rate at its old
value (here 0) instead of 3/4, because the success-rate branch re-reads the
request counter only after it has just been reset to zero (and the success
counter itself is never reset). -/
theorem updateStatsTick_misses_success_rate :
    (updateStatsTick
        { stats := { activeConnections := 0, avgResponseTime := 0,
                     requestsPerSecond := 0, successRate := 0 }
          requestTimes := List.replicate 60 0
          requestCount := 4
          successCount := 3 } 1).stats.requestsPerSecond = 4 ∧
    (updateStatsTick
        { stats := { activeConnections := 0, avgResponseTime := 0,
                     requestsPerSecond := 0, successRate := 0 }
          requestTimes := List.replicate 60 0
          requestCount := 4
          successCount := 3 } 1).requestCount = 0 ∧
    (updateStatsTick
        { stats := { activeConnections := 0, avgResponseTime := 0,
                     requestsPerSecond := 0, successRate := 0 }
          requestTimes := List.replicate 60 0
          requestCount := 4
          successCount := 3 } 1).stats.successRate = 0 ∧
    (updateStatsTick
        { stats := { activeConnections := 0, avgResponseTime := 0,
                     requestsPerSecond := 0, successRate := 0 }
          requestTimes := List.replicate 60 0
          requestCount := 4
          successCount := 3 } 1).successCount = 3 := by
  refine ⟨?_, ?_, ?_, ?_⟩ <;>
    simp only [updateStatsTick, filter_pos_replicate_zero] <;>
    norm_num

/-! ## Claim theorems: hot-reload orchestrator -/

/-- Claim C4: whenever `reconfigure` returns an error, the orchestrator state
is unchanged — the active proxy field still holds the previous instance and
no proxy was stopped; moreover an unsupported balancing method always
produces an error, and so does a start failure of the newly built proxy. -/
theorem reconfigure_failure_leaves_state (a : AppState) (cfg : AppConfig)
    (startErr : ProxyInst → Option String) :
    ((reconfigure a cfg startErr).2 ≠ none → (reconfigure a cfg startErr).1 = a) ∧
    (¬ (cfg.method = "RoundRobin" ∨ cfg.method = "WeightedRoundRobin" ∨
        cfg.method = "LeastConnections") →
      (reconfigure a cfg startErr).2 ≠ none) ∧
    (∀ kind, loadbalancerNew cfg.method = .ok kind →
      startErr ⟨a.nextPid, kind, cfg.rate, cfg.burst⟩ ≠ none →
      (reconfigure a cfg startErr).2 ≠ none) := by
  refine ⟨?_, ?_, ?_⟩
  · intro h
    rcases hlb : loadbalancerNew cfg.method with e | kind
    · simp [reconfigure, hlb]
    · rcases hp : a.proxy with _ | oldProxy
      · rcases hs : startErr ⟨a.nextPid, kind, cfg.rate, cfg.burst⟩ with _ | e
        · exact absurd (by simp [reconfigure, hlb, hp, hs]) h
        · simp [reconfigure, hlb, hp, hs]
      · rcases hs : startErr ⟨a.nextPid, kind, cfg.rate, cfg.burst⟩ with _ | e
        · exact absurd (by simp [reconfigure, hlb, hp, hs]) h
        · simp [reconfigure, hlb, hp, hs]
  · intro h
    push_neg at h
    unfold reconfigure loadbalancerNew
    simp only [if_neg h.1, if_neg h.2.1, if_neg h.2.2]
    simp
  · intro kind hlb hs
    rcases hse : startErr ⟨a.nextPid, kind, cfg.rate, cfg.burst⟩ with _ | e
    · exact absurd hse hs
    · rcases hp : a.proxy with _ | oldProxy <;>
        simp [reconfigure, hlb, hp, hse]

/-- Concrete orchestrator state with an active proxy, for the reconfigure
witness. -/
def appActive : AppState :=
  { proxy := some { pid := 0, lbKind := LBKind.roundRobin, rate := 10, burst := 1 }
    stopped := []
    nextPid := 1 }

/-- Witness for C4: a reconfiguration with the unsupported method `"Fancy"`
against a running instance returns an error and leaves the state unchanged. -/
theorem reconfigure_failure_leaves_state_witness :
    (reconfigure appActive { method := "Fancy", rate := 1, burst := 1 }
        (fun _ => none)).2 ≠ none ∧
    (reconfigure appActive { method := "Fancy", rate := 1, burst := 1 }
        (fun _ => none)).1 = appActive := by
  have h := reconfigure_failure_leaves_state appActive
    { method := "Fancy", rate := 1, burst := 1 } (fun _ => none)
  have herr := h.2.1 (by decide)
  exact ⟨herr, h.1 herr⟩

/-! ## Claim theorems: empty registry -/

/-- Claim C8: on a registry holding zero backends, every strategy's `Invoke`
returns nil without advancing any counter or touching any state — the wired
round-robin, weighted round-robin and least-connections variants, and the
unwired least-connections duplicate alike. -/
theorem invoke_empty_registry_returns_none (current : Nat) :
    roundRobinInvoke current [] = (none, current) ∧
    wrrInvoke current [] = (none, current) ∧
    leastConnInvoke [] = (none, []) ∧
    leastConnectionsInvoke [] = (none, []) :=
  ⟨rfl, rfl, rfl, rfl⟩

/-! ## Least-connections scan lemmas -/

/-- When no remaining entry beats the running minimum, the scan keeps its
current selection. -/
theorem leastConnScan_no_update (l : Registry) (sel : Option BackendState)
    (m : Int) (h : ∀ st ∈ l, ¬ st.stats.activeConnections < m) :
    leastConnScan l sel m = sel := by
  induction l with
  | nil => rfl
  | cons st rest ih =>
      have hst := h st (List.mem_cons_self st rest)
      simp only [leastConnScan, if_neg hst]
      exact ih (fun b hb => h b (List.mem_cons_of_mem st hb))

/-- When `a` is in the list, beats the running minimum, and every entry of the
list is either `a` or has strictly more active connections than `a`, the
scan ends on `a`. -/
theorem leastConnScan_selects_min (a : BackendState) :
    ∀ (l : Registry) (sel : Option BackendState) (m : Int), a ∈ l →
      a.stats.activeConnections < m →
      (∀ st ∈ l, st = a ∨
        a.stats.activeConnections < st.stats.activeConnections) →
      leastConnScan l sel m = some a := by
  intro l
  induction l with
  | nil => intro sel m ha _ _; exact absurd ha (List.not_mem_nil a)
  | cons st rest ih =>
      intro sel m ha hm hall
      rcases hall st (List.mem_cons_self st rest) with hst | hst
      · subst hst
        simp only [leastConnScan, if_pos hm]
        apply leastConnScan_no_update
        intro b hb
        rcases hall b (List.mem_cons_of_mem st hb) with hb' | hb'
        · subst hb'; omega
        · omega
      · have ha' : a ∈ rest := by
          rcases List.mem_cons.mp ha with h | h
          · exact absurd h.symm (fun he => by simp [he] at hst)
          · exact h
        have hall' : ∀ b ∈ rest, b = a ∨
            a.stats.activeConnections < b.stats.activeConnections :=
          fun b hb => hall b (List.mem_cons_of_mem st hb)
        by_cases hlt : st.stats.activeConnections < m
        · simp only [leastConnScan, if_pos hlt]
          exact ih (some st) st.stats.activeConnections ha' hst hall'
        · simp only [leastConnScan, if_neg hlt]
          exact ih sel m ha' hm hall'

/-! ## Claim theorems: least connections selects the strict minimum -/

/-- Claim C7 (amended): for every registry snapshot in which entry `a` has
strictly fewer active connections than every other entry — and `a`'s count
is below `math.MaxInt64`, the scan's initial minimum — the wired
least-connections `Invoke` returns `a`'s backend, regardless of iteration
order, and leaves the registry unchanged. -/
theorem leastConnInvoke_selects_min (bs : Registry) (a : BackendState)
    (ha : a ∈ bs) (hmax : a.stats.activeConnections < maxInt64)
    (hmin : ∀ st ∈ bs, st = a ∨
      a.stats.activeConnections < st.stats.activeConnections) :
    (leastConnInvoke bs).1 = some a.backend ∧ (leastConnInvoke bs).2 = bs := by
  have hne : bs.length ≠ 0 := by
    cases bs with
    | nil => exact absurd ha (List.not_mem_nil a)
    | cons b l => simp
  have hscan := leastConnScan_selects_min a bs none maxInt64 ha hmax hmin
  unfold leastConnInvoke
  rw [if_neg hne, hscan]
  exact ⟨rfl, rfl⟩

/-- Witness for C7: in the snapshot `[stB5, stA0]` the entry `stA0` (zero
active connections) beats `stB5` (five), and `Invoke` returns backend
`"a"`. -/
theorem leastConnInvoke_selects_min_witness :
    (leastConnInvoke [stB5, stA0]).1 = some stA0.backend ∧
    (leastConnInvoke [stB5, stA0]).2 = [stB5, stA0] :=
  leastConnInvoke_selects_min [stB5, stA0] stA0 (by decide) (by decide)
    (by decide)

/-- Counterexample for C7 as frozen: in the one-entry snapshot `[stAMax]` the
entry `stAMax` vacuously has strictly fewer active connections than every
other entry, yet `Invoke` returns nil — its count equals `math.MaxInt64`,
so the strict comparison against the initial minimum never fires and no
backend is ever selected. -/
theorem leastConnInvoke_maxInt64_returns_none :
    (∀ st ∈ [stAMax], st = stAMax ∨
      stAMax.stats.activeConnections < st.stats.activeConnections) ∧
    (leastConnInvoke [stAMax]).1 = none := by
  refine ⟨by decide, by decide⟩

/-! ## Registry-lookup lemmas -/

/-- Active-connection count of the entry keyed by `id`, the observable the
least-connections claims are about. -/
def connsOf (reg : Registry) (id : String) : Option Int :=
  (getBackend reg id).map (fun st => st.stats.activeConnections)

/-- Looking up a key in a registry mapped through an id-preserving update is
the same as updating the result of the lookup. -/
theorem getBackend_map_of_id_preserving (reg : Registry)
    (upd : BackendState → BackendState)
    (h : ∀ st, (upd st).backend.id = st.backend.id) (id : String) :
    getBackend (reg.map upd) id = (getBackend reg id).map upd := by
  unfold getBackend
  rw [List.find?_map]
  have hp : ((fun st : BackendState => decide (st.backend.id = id)) ∘ upd) =
      (fun st : BackendState => decide (st.backend.id = id)) := by
    funext st
    simp [Function.comp, h st]
  rw [hp]

/-- The scan can only return its initial selection or a list entry. -/
theorem leastConnScan_mem (st : BackendState) :
    ∀ (l : Registry) (sel : Option BackendState) (m : Int),
      leastConnScan l sel m = some st → sel = some st ∨ st ∈ l := by
  intro l
  induction l with
  | nil => intro sel m h; exact Or.inl h
  | cons b rest ih =>
      intro sel m h
      by_cases hlt : b.stats.activeConnections < m
      · simp only [leastConnScan, if_pos hlt] at h
        rcases ih (some b) b.stats.activeConnections h with h' | h'
        · have hb : b = st := Option.some_inj.mp h'
          subst hb
          exact Or.inr (List.mem_cons_self b rest)
        · exact Or.inr (List.mem_cons_of_mem b h')
      · simp only [leastConnScan, if_neg hlt] at h
        rcases ih sel m h with h' | h'
        · exact Or.inl h'
        · exact Or.inr (List.mem_cons_of_mem b h')

/-- `IncActiveConnections` preserves backend identities (it only touches the
counter). -/
theorem incActiveConnections_id_preserving (id : String) :
    ∀ st : BackendState,
      ((fun st : BackendState =>
        if st.backend.id = id then
          { st with stats := { st.stats with
              activeConnections := st.stats.activeConnections + 1 } }
        else st) st).backend.id = st.backend.id := by
  intro st
  by_cases h : st.backend.id = id <;> simp [h]

/-- Effect of `IncActiveConnections` on the count observables: the targeted
key's count grows by one (when present), every other key is untouched. -/
theorem connsOf_incActiveConnections (reg : Registry) (id j : String) :
    connsOf (incActiveConnections reg id) j =
      if j = id then (connsOf reg j).map (fun n => n + 1) else connsOf reg j := by
  unfold connsOf incActiveConnections
  rw [getBackend_map_of_id_preserving reg _ (incActiveConnections_id_preserving id) j]
  cases hg : getBackend reg j with
  | none => simp
  | some st =>
      have hid : st.backend.id = j := by
        have := List.find?_some hg
        simpa using this
      by_cases hj : j = id
      · subst hj
        simp [hid]
      · have : ¬ st.backend.id = id := by rw [hid]; exact hj
        simp [this, hj]

/-! ## Claim theorems: least-connections side effect -/

/-- Claim C2 (amended): the unwired duplicate `LeastConnections.Invoke` does,
for every non-empty registry, return some entry's backend and increment
exactly that backend's active-connection count by one, leaving every other
count unchanged.  (The wired `LeastConn.Invoke` performs no such update —
see the counterexample.) -/
theorem leastConnectionsInvoke_increments (bs : Registry) (hne : bs ≠ []) :
    ∃ sel ∈ bs,
      (leastConnectionsInvoke bs).1 = some sel.backend ∧
      connsOf (leastConnectionsInvoke bs).2 sel.backend.id =
        (connsOf bs sel.backend.id).map (fun n => n + 1) ∧
      ∀ j, j ≠ sel.backend.id →
        connsOf (leastConnectionsInvoke bs).2 j = connsOf bs j := by
  cases bs with
  | nil => exact absurd rfl hne
  | cons b0 rest =>
      set sel := (leastConnScan (b0 :: rest) none maxInt64).getD b0 with hsel
      have hmem : sel ∈ b0 :: rest := by
        cases hscan : leastConnScan (b0 :: rest) none maxInt64 with
        | none => rw [hsel, hscan]; exact List.mem_cons_self b0 rest
        | some st =>
            rcases leastConnScan_mem st (b0 :: rest) none maxInt64 hscan with
              h | h
            · exact absurd h (by simp)
            · rw [hsel, hscan]; exact h
      refine ⟨sel, hmem, rfl, ?_, ?_⟩
      · show connsOf (incActiveConnections (b0 :: rest) sel.backend.id)
            sel.backend.id = _
        rw [connsOf_incActiveConnections]
        simp
      · intro j hj
        show connsOf (incActiveConnections (b0 :: rest) sel.backend.id) j = _
        rw [connsOf_incActiveConnections]
        simp [hj]

/-- Witness for C2 (amended): on `[stB5, stA0]` the duplicate implementation
selects some entry and bumps exactly its count. -/
theorem leastConnectionsInvoke_increments_witness :
    ∃ sel ∈ [stB5, stA0],
      (leastConnectionsInvoke [stB5, stA0]).1 = some sel.backend ∧
      connsOf (leastConnectionsInvoke [stB5, stA0]).2 sel.backend.id =
        (connsOf [stB5, stA0] sel.backend.id).map (fun n => n + 1) ∧
      ∀ j, j ≠ sel.backend.id →
        connsOf (leastConnectionsInvoke [stB5, stA0]).2 j =
          connsOf [stB5, stA0] j :=
  leastConnectionsInvoke_increments [stB5, stA0] (by decide)

/-- Counterexample for C2 as frozen: the wired `LeastConn.Invoke` (the variant
`loadbalancer.New` instantiates for `"LeastConnections"`) selects backend
`"a"` from the snapshot `[stA0]` but leaves the registry — in particular the
chosen backend's active-connection count, still 0 — completely unchanged. -/
theorem leastConnInvoke_does_not_increment :
    (leastConnInvoke [stA0]).1 = some stA0.backend ∧
    (leastConnInvoke [stA0]).2 = [stA0] ∧
    connsOf (leastConnInvoke [stA0]).2 stA0.backend.id = some 0 := by
  refine ⟨by decide, by decide, by decide⟩

/-! ## Round-robin coverage lemmas -/

/-- Closed form of `n` consecutive round-robin selections when the shared
`uint64` counter does not wrap within the window: the `i`-th selection is
the backend at index `(c + 1 + i) % len`. -/
theorem roundRobinRun_selections (bs : Registry) (hne : ¬ bs.length = 0) :
    ∀ (n c : Nat), c + n < UINT64 →
      (roundRobinRun n c bs).1 =
        (List.range n).map
          (fun i => (bs.get? ((c + 1 + i) % bs.length)).map
            (fun st => st.backend)) := by
  intro n
  induction n with
  | zero => intro c _; rfl
  | succ n ih =>
      intro c h
      have hc1 : (c + 1) % UINT64 = c + 1 := Nat.mod_eq_of_lt (by omega)
      simp only [roundRobinRun, roundRobinInvoke, if_neg hne, hc1]
      rw [ih (c + 1) (by omega)]
      rw [List.range_succ_eq_map, List.map_cons, List.map_map]
      refine congrArg₂ _ ?_ ?_
      · norm_num
      · refine List.map_congr_left ?_
        intro i _
        simp only [Function.comp]
        have : c + 1 + 1 + i = c + 1 + (i + 1) := by omega
        rw [this]

/-- Indexing every position of a list with `get?` reproduces the list (with
`some` applied). -/
theorem range_map_get (bs : Registry) :
    (List.range bs.length).map
      (fun j => (bs.get? j).map (fun st => st.backend)) =
    bs.map (fun st => some st.backend) := by
  induction bs with
  | nil => rfl
  | cons st rest ih =>
      rw [List.length_cons, List.range_succ_eq_map, List.map_cons,
        List.map_map, List.map_cons]
      refine congrArg₂ _ rfl ?_
      rw [show ((fun j => ((st :: rest).get? j).map (fun s => s.backend)) ∘
          Nat.succ) = (fun j => (rest.get? j).map (fun s => s.backend)) from
        funext fun j => by simp [Function.comp]]
      exact ih

/-- The residues of `N` consecutive integers modulo `N` are a permutation of
`0, …, N-1`. -/
theorem range_mod_perm (N k : Nat) (hN : 0 < N) :
    ((List.range N).map (fun i => (k + i) % N)).Perm (List.range N) := by
  have hsub : ((List.range N).map (fun i => (k + i) % N)) ⊆ List.range N := by
    intro x hx
    rcases List.mem_map.mp hx with ⟨i, -, rfl⟩
    exact List.mem_range.mpr (Nat.mod_lt _ hN)
  have hnd : ((List.range N).map (fun i => (k + i) % N)).Nodup := by
    refine List.Nodup.map_on ?_ (List.nodup_range N)
    intro i hi j hj hij
    have hij' : k + i ≡ k + j [MOD N] := hij
    have hmod : i % N = j % N := Nat.ModEq.add_left_cancel' k hij'
    rwa [Nat.mod_eq_of_lt (List.mem_range.mp hi),
      Nat.mod_eq_of_lt (List.mem_range.mp hj)] at hmod
  have hsp := List.subperm_of_subset hnd hsub
  refine hsp.perm_of_length_le ?_
  simp

/-! ## Claim theorems: round-robin coverage -/

/-- Claim C5 (amended): for every non-empty registry of `N` backends and
every counter value such that the shared `uint64` counter does not wrap
within the window (`c + N < 2^64`), `N` consecutive `RoundRobin.Invoke`
calls with no topology change select each registry entry exactly once —
the selection list is a permutation of the backend list. -/
theorem roundRobinRun_covers_each_once (c : Nat) (bs : Registry)
    (hne : bs ≠ []) (hwrap : c + bs.length < UINT64) :
    (roundRobinRun bs.length c bs).1.Perm
      (bs.map (fun st => some st.backend)) := by
  have hlen : ¬ bs.length = 0 := by
    cases bs with
    | nil => exact absurd rfl hne
    | cons b l => simp
  have hN : 0 < bs.length := Nat.pos_of_ne_zero hlen
  rw [roundRobinRun_selections bs hlen bs.length c hwrap]
  have hcomp :
      (List.range bs.length).map
        (fun i => (bs.get? ((c + 1 + i) % bs.length)).map
          (fun st => st.backend)) =
      ((List.range bs.length).map (fun i => (c + 1 + i) % bs.length)).map
        (fun j => (bs.get? j).map (fun st => st.backend)) := by
    rw [List.map_map]
    rfl
  rw [hcomp, ← range_map_get bs]
  exact (range_mod_perm bs.length (c + 1) hN).map
    (fun j => (bs.get? j).map (fun st => st.backend))

/-- Witness for C5: three consecutive invocations against the three-backend
snapshot `regABC`, starting from counter 0, select each backend exactly
once. -/
theorem roundRobinRun_covers_each_once_witness :
    (roundRobinRun regABC.length 0 regABC).1.Perm
      (regABC.map (fun st => some st.backend)) :=
  roundRobinRun_covers_each_once 0 regABC (by decide)
    (by norm_num [regABC, UINT64])

/-- Counterexample for C5 as frozen: with the shared counter two steps short
of wrapping (`2^64 - 2`), three consecutive invocations against the
three-backend snapshot `regABC` select backend `"a"` twice and never select
backend `"c"` — the wraparound `2^64 ≡ 0` breaks the consecutive-residue
argument because 3 does not divide `2^64`. -/
theorem roundRobinRun_wraparound_skips_backend :
    (roundRobinRun 3 (UINT64 - 2) regABC).1 =
      [some bkA, some bkA, some bkB] ∧
    ((roundRobinRun 3 (UINT64 - 2) regABC).1.count (some bkC) = 0) := by
  refine ⟨by decide, by decide⟩

/-! ## Weighted-round-robin lemmas -/

/-- Sum of the weights of the first `i + 1` registry entries — the running
accumulator of the claim's walk, expressed as a global prefix sum. -/
def prefixWeight (bs : Registry) (i : Nat) : ℚ :=
  ((bs.take (i + 1)).map (fun st => st.weight)).sum

/-- Specification-side selection from the claim's words: the index of the
first backend (in iteration order) whose accumulated weight reaches or
exceeds the target. -/
def firstReachingIdx (target : ℚ) (bs : Registry) : Option Nat :=
  (List.range bs.length).find? (fun i => target ≤ prefixWeight bs i)

/-- `prefixWeight` at the head of a cons. -/
theorem prefixWeight_cons_zero (st : BackendState) (rest : Registry) :
    prefixWeight (st :: rest) 0 = st.weight := by
  simp [prefixWeight]

/-- `prefixWeight` one step into a cons. -/
theorem prefixWeight_cons_succ (st : BackendState) (rest : Registry) (i : Nat) :
    prefixWeight (st :: rest) (i + 1) = st.weight + prefixWeight rest i := by
  simp [prefixWeight, List.take_succ_cons]

/-- The accumulation walk of `WeightedRoundRobin.Invoke` returns exactly the
backend at the first index whose prefix sum (offset by the incoming
accumulator) reaches the target. -/
theorem wrrLoop_eq (target : ℚ) :
    ∀ (bs : Registry) (accum : ℚ),
      wrrLoop target accum bs =
        ((List.range bs.length).find?
            (fun i => target ≤ accum + prefixWeight bs i)).bind
          (fun i => (bs.get? i).map (fun st => st.backend)) := by
  intro bs
  induction bs with
  | nil => intro accum; rfl
  | cons st rest ih =>
      intro accum
      rw [List.length_cons, List.range_succ_eq_map]
      by_cases h : target ≤ accum + st.weight
      · have hp0 : (fun i => decide (target ≤ accum + prefixWeight (st :: rest) i)) 0
            = true := by
          simp [prefixWeight_cons_zero, h]
        rw [List.find?_cons_of_pos
          (p := fun i => decide (target ≤ accum + prefixWeight (st :: rest) i))
          (List.map Nat.succ (List.range rest.length)) hp0]
        simp only [wrrLoop, if_pos h]
        rfl
      · have hp0 : ¬ ((fun i => decide (target ≤ accum + prefixWeight (st :: rest) i)) 0
            = true) := by
          simp [prefixWeight_cons_zero, h]
        rw [List.find?_cons_of_neg
          (p := fun i => decide (target ≤ accum + prefixWeight (st :: rest) i))
          (List.map Nat.succ (List.range rest.length)) hp0]
        rw [List.find?_map]
        simp only [wrrLoop, if_neg h]
        rw [ih (accum + st.weight)]
        have hq : ((fun i => decide (target ≤ accum + prefixWeight (st :: rest) i)) ∘
            Nat.succ) =
            (fun i => decide (target ≤ accum + st.weight + prefixWeight rest i)) := by
          funext i
          simp only [Function.comp, prefixWeight_cons_succ]
          rw [← add_assoc]
        rw [hq]
        cases hf : (List.range rest.length).find?
            (fun i => decide (target ≤ accum + st.weight + prefixWeight rest i)) with
        | none => rfl
        | some i => rfl

/-- The base `AddBackend` stores a fresh zero-stats, zero-weight entry under
the backend's id. -/
theorem getBackend_baseAddBackend (reg : Registry) (b : GoBackend) :
    getBackend (baseAddBackend reg b) b.id =
      some { backend := b, stats := RegStats.zero, weight := 0 } := by
  unfold baseAddBackend
  by_cases h : (reg.find? (fun st => st.backend.id = b.id)).isSome
  · rw [if_pos h]
    have hpres : ∀ st : BackendState,
        ((fun st : BackendState =>
          if st.backend.id = b.id then
            { backend := b, stats := RegStats.zero, weight := 0 }
          else st) st).backend.id = st.backend.id := by
      intro st
      by_cases hst : st.backend.id = b.id <;> simp [hst]
    rw [getBackend_map_of_id_preserving reg _ hpres b.id]
    obtain ⟨st₀, hst₀⟩ := Option.isSome_iff_exists.mp h
    have hfind : getBackend reg b.id = some st₀ := hst₀
    rw [hfind]
    have hid : st₀.backend.id = b.id := by
      simpa using List.find?_some hst₀
    simp [hid]
  · rw [if_neg h]
    unfold getBackend
    rw [List.find?_append]
    rw [Option.not_isSome_iff_eq_none.mp h]
    simp

/-- `WeightedRoundRobin.AddBackend` stores the configured weight under the
backend's id, substituting `1.0` when the configured weight is
non-positive. -/
theorem wrrAddBackend_weight (reg : Registry) (b : GoBackend) :
    (getBackend (wrrAddBackend reg b) b.id).map (fun st => st.weight) =
      some (if b.weight ≤ 0 then 1 else b.weight) := by
  unfold wrrAddBackend
  simp only [getBackend_baseAddBackend reg b]
  have hpres : ∀ st : BackendState,
      ((fun st : BackendState =>
        if st.backend.id = b.id then
          { st with weight := if b.weight ≤ 0 then 1 else b.weight }
        else st) st).backend.id = st.backend.id := by
    intro st
    by_cases hst : st.backend.id = b.id <;> simp [hst]
  rw [getBackend_map_of_id_preserving _ _ hpres b.id]
  rw [getBackend_baseAddBackend reg b]
  simp

/-! ## Claim theorems: weighted round robin -/

/-- Claim C6: for every non-empty registry, `WeightedRoundRobin.Invoke`
advances the shared `uint64` counter by one (wrapping at `2^64`), computes
the target `(counter mod 1000)/1000` times the sum of all current weights,
and returns the backend at the first iteration-order index whose
accumulated weight reaches or exceeds the target — falling back to the last
backend in iteration order when no prefix reaches the target; and
`AddBackend` stores the backend's configured weight, substituting `1.0`
when the configured weight is non-positive. -/
theorem wrrInvoke_spec (current : Nat) (bs : Registry) (hne : bs ≠ [])
    (reg : Registry) (b : GoBackend) :
    (wrrInvoke current bs).2 = (current + 1) % UINT64 ∧
    (wrrInvoke current bs).1 =
      (match firstReachingIdx
          (((((current + 1) % UINT64) % 1000 : Nat) : ℚ) / 1000 *
            ((bs.map (fun st => st.weight)).sum)) bs with
        | some i => (bs.get? i).map (fun st => st.backend)
        | none => bs.getLast?.map (fun st => st.backend)) ∧
    (getBackend (wrrAddBackend reg b) b.id).map (fun st => st.weight) =
      some (if b.weight ≤ 0 then 1 else b.weight) := by
  have hlen : ¬ bs.length = 0 := by
    cases bs with
    | nil => exact absurd rfl hne
    | cons x l => simp
  refine ⟨?_, ?_, wrrAddBackend_weight reg b⟩
  · simp only [wrrInvoke, if_neg hlen]
    cases hw : wrrLoop
        (((((current + 1) % UINT64) % 1000 : Nat) : ℚ) / 1000 *
          ((bs.map (fun st => st.weight)).sum)) 0 bs with
    | none => simp [hw]
    | some x => simp [hw]
  · simp only [wrrInvoke, if_neg hlen]
    rw [wrrLoop_eq]
    have hpred : (fun i => decide
        ((((((current + 1) % UINT64) % 1000 : Nat) : ℚ) / 1000 *
          ((bs.map (fun st => st.weight)).sum)) ≤ 0 + prefixWeight bs i)) =
        (fun i => decide
        ((((((current + 1) % UINT64) % 1000 : Nat) : ℚ) / 1000 *
          ((bs.map (fun st => st.weight)).sum)) ≤ prefixWeight bs i)) := by
      funext i
      rw [zero_add]
    rw [hpred]
    unfold firstReachingIdx
    cases hf : (List.range bs.length).find? (fun i => decide
        ((((((current + 1) % UINT64) % 1000 : Nat) : ℚ) / 1000 *
          ((bs.map (fun st => st.weight)).sum)) ≤ prefixWeight bs i)) with
    | none => rfl
    | some i =>
        have hi : i < bs.length :=
          List.mem_range.mp (List.mem_of_find?_eq_some hf)
        cases hg : bs.get? i with
        | none =>
            exact absurd (List.get?_eq_none.mp hg) (by omega)
        | some x =>
            rw [List.get?_eq_getElem?] at hg
            simp [hg]

/-- Witness for C6: against the three-backend snapshot `regABC` with counter
5, `Invoke` advances the shared counter to `6 % 2^64`. -/
theorem wrrInvoke_spec_witness :
    (wrrInvoke 5 regABC).2 = (5 + 1) % UINT64 :=
  (wrrInvoke_spec 5 regABC (by decide) [] bkA).1

end LBProxy
